import Mathlib

/-!
Verification development for the dresses repository: a browser-based
collaborative list editor (Entry Store + Persistence Bridge + Remote Mirror +
Image Normalizer + Countdown Display).  The two `src/unnamed` files are two
variants of the `App` component; `000` names the first variant
(`src/unnamed/part_000`) and `001` the second (`src/unnamed/part_001`).

Modelling conventions:
* JS strings are `String`, numbers used as timestamps are `Int`, pixel sizes
  and image geometry use `ℚ` (idealised real arithmetic; the spec allows
  "within rounding").
* A JS object used as a string-keyed record (`Record<string, ...>`) is an
  insertion-ordered association list without duplicate keys;
  `recordGet`/`recordSet` model property lookup and the
  `{...obj, [k]: v}` spread-update (existing key keeps its position,
  new key is appended).
* A possibly-partial JS note object (`{...maybeUndefined, ...updates}` can
  drop fields) is `NoteObj`, every field optional.
* The persisted slot holds a string; `Stored.ok d` stands for a string that
  `JSON.parse` accepts as a `SyncData`-shaped value, `Stored.malformed raw`
  for a string `JSON.parse` rejects.  `JSON.stringify` of a `SyncData` is
  `Stored.ok`; the JSON codec itself is modelled as structure-preserving.
* Fallible JS code (uncaught exceptions) returns `Except String`.
* `crypto.randomUUID()` and `Date.now()` are passed in as parameters, and the
  roster `TEAM_MEMBERS` and key `STORAGE_KEY` (whose defining file
  `constants.ts` is not under `src/`) are parameters as well.
-/

/-- The tri-state vote: `'up' | 'down'`; JS `null` is `Option.none` around it. -/
inductive Vote where
  | up
  | down
deriving DecidableEq, Repr

/-- A team-member note object as it can actually occur at runtime: every field
may be missing, because `{...undefined, ...updates}` builds an object holding
only the update's fields (src/unnamed/part_001 line 127, part_000 line 79). -/
structure NoteObj where
  name : Option String
  note : Option String
  vote : Option (Option Vote)
deriving DecidableEq, Repr

/-- `Partial<{note: string, vote: 'up' | 'down' | null}>` as passed to
`updateMemberNote`. -/
structure NoteUpdates where
  note : Option String
  vote : Option (Option Vote)
deriving DecidableEq, Repr

/-- One candidate dress entry (src/types.ts `DressEntry`); `teamNotes` is the
string-keyed record modelled as an insertion-ordered association list. -/
structure DressEntry where
  id : String
  location : String
  price : String
  image : Option String
  teamNotes : List (String × NoteObj)
deriving DecidableEq, Repr

/-- The persisted snapshot (src/types.ts `SyncData`). -/
structure SyncData where
  entries : List DressEntry
  lastUpdated : Int
deriving DecidableEq, Repr

/-- A string sitting in the local storage slot, classified by whether
`JSON.parse` accepts it as a `SyncData`-shaped value. -/
inductive Stored where
  | ok (d : SyncData)
  | malformed (raw : String)
deriving DecidableEq, Repr

/-- `JSON.parse` on a slot string: succeeds on well-formed data, throws
(`Except.error`) otherwise. -/
def jsonParse : Stored → Except String SyncData
  | .ok d => .ok d
  | .malformed raw => .error raw

/-- The component state both claims care about: `entries` and `lastSyncTime`
(`useState` hooks of `App`). -/
structure AppState where
  entries : List DressEntry
  lastSyncTime : Option Int
deriving DecidableEq, Repr

/-- The initial hook state: `useState<DressEntry[]>([])`,
`useState<number | null>(null)`. -/
def initState : AppState := ⟨[], none⟩

/-- JS property lookup `r[k]` on a string-keyed record:
first binding wins (records built here never hold duplicate keys). -/
def recordGet {α : Type} : List (String × α) → String → Option α
  | [], _ => none
  | p :: r, k => if p.1 == k then some p.2 else recordGet r k

/-- The spread-update `{...r, [k]: v}` on a duplicate-free record: an existing
key keeps its position and gets the new value, a new key is appended. -/
def recordSet {α : Type} : List (String × α) → String → α → List (String × α)
  | [], k, v => [(k, v)]
  | p :: r, k, v => if p.1 == k then (k, v) :: r else p :: recordSet r k v

/-- The keys of a record, in insertion order. -/
def keysOf {α : Type} (r : List (String × α)) : List String :=
  r.map Prod.fst

/-- The fresh note `{ name, note: '', vote: null }` built per roster member. -/
def emptyNote (n : String) : NoteObj := ⟨some n, some "", some none⟩

/-- `TEAM_MEMBERS.reduce((acc, name) => ({...acc, [name]: {name, note: '', vote: null}}), {})`
(part_000 lines 25-28 and 104-107, part_001 lines 154-157). -/
def mkTeamNotes (roster : List String) : List (String × NoteObj) :=
  roster.foldl (fun acc n => recordSet acc n (emptyNote n)) []

/-- A freshly created entry (`addNewDress` / the initial seed entry):
fresh id, empty location and price, no image, one empty note per member. -/
def mkEntry (roster : List String) (freshId : String) : DressEntry :=
  ⟨freshId, "", "", none, mkTeamNotes roster⟩

/-- `Partial<DressEntry>` as actually passed to `updateEntry` at every call
site: only `location`, `price` and `image` are ever supplied. -/
structure EntryUpdates where
  location : Option String
  price : Option String
  image : Option (Option String)
deriving DecidableEq, Repr

/-- The spread `{ ...e, ...updates }` for those fields. -/
def applyEntryUpdates (e : DressEntry) (u : EntryUpdates) : DressEntry :=
  { e with
    location := u.location.getD e.location
    price := u.price.getD e.price
    image := u.image.getD e.image }

/-- `updateEntry` (part_000 lines 67-69, part_001 lines 115-117):
`prev.map(e => e.id === id ? { ...e, ...updates } : e)`. -/
def updateEntry (id : String) (u : EntryUpdates) (entries : List DressEntry) :
    List DressEntry :=
  entries.map (fun e => if e.id == id then applyEntryUpdates e u else e)

/-- A field-level merge: the update's field wins when present, otherwise the
old value survives (the effect of `{...old, ...upd}` on one field). -/
def mergeField {α : Type} (upd old : Option α) : Option α :=
  match upd with
  | some v => some v
  | none => old

/-- `{ ...memberNote, ...updates }` where `memberNote` may be `undefined`
(absent key): spreading `undefined` contributes nothing, so the result then
holds only the update's fields and in particular no `name`. -/
def spreadNote : Option NoteObj → NoteUpdates → NoteObj
  | some b, u => ⟨b.name, mergeField u.note b.note, mergeField u.vote b.vote⟩
  | none, u => ⟨none, u.note, u.vote⟩

/-- `updateMemberNote` (part_000 lines 71-85, part_001 lines 119-133). -/
def updateMemberNote (entryId memberName : String) (u : NoteUpdates)
    (entries : List DressEntry) : List DressEntry :=
  entries.map fun e =>
    if e.id == entryId then
      let merged := spreadNote (recordGet e.teamNotes memberName) u
      { e with teamNotes := recordSet e.teamNotes memberName merged }
    else e

/-- `addNewDress` of part_001 (lines 148-160): the new entry is prepended. -/
def addNewDress (roster : List String) (freshId : String)
    (entries : List DressEntry) : List DressEntry :=
  mkEntry roster freshId :: entries

/-- `addNewDress` of part_000 (lines 98-110): the new entry is appended. -/
def addNewDressAppend (roster : List String) (freshId : String)
    (entries : List DressEntry) : List DressEntry :=
  entries ++ [mkEntry roster freshId]

/-- `removeDress` after the user confirmed (part_000 line 114, part_001
line 225): `prev.filter(e => e.id !== id)`. -/
def removeDress (id : String) (entries : List DressEntry) : List DressEntry :=
  entries.filter (fun e => e.id != id)

/-- One Entry Store operation, with the nondeterministic inputs
(fresh id) made explicit. -/
inductive StoreOp where
  | create (freshId : String)
  | updateFields (id : String) (u : EntryUpdates)
  | updateNote (id : String) (memberName : String) (u : NoteUpdates)
  | remove (id : String)
deriving DecidableEq, Repr

/-- Apply one operation to the entry list (create prepends, as in part_001). -/
def applyOp (roster : List String) (entries : List DressEntry) :
    StoreOp → List DressEntry
  | .create fid => addNewDress roster fid entries
  | .updateFields id u => updateEntry id u entries
  | .updateNote id m u => updateMemberNote id m u entries
  | .remove id => removeDress id entries

/-- Run a sequence of operations starting from the freshly created
(empty) entry list. -/
def runOps (roster : List String) (ops : List StoreOp) : List DressEntry :=
  ops.foldl (applyOp roster) []

/-- Whether an operation only ever touches roster members
(every `updateMemberNote` call site in the UI passes a `TEAM_MEMBERS` name). -/
def opTouchesRoster (roster : List String) : StoreOp → Bool
  | .updateNote _ m _ => roster.contains m
  | _ => true

/-- The roster invariant claimed for every entry: duplicate-free keys, the
key set is exactly the roster, and each note's `name` field equals its key. -/
def entryInv (roster : List String) (e : DressEntry) : Prop :=
  (keysOf e.teamNotes).Nodup ∧
  (∀ k : String, (recordGet e.teamNotes k).isSome = true ↔ k ∈ roster) ∧
  (∀ k v, recordGet e.teamNotes k = some v → v.name = some k)

/-- The initial-load effect of part_000 (lines 12-32): parse the slot if
present — `JSON.parse` is not guarded, so a parse failure propagates — and
otherwise seed a single empty entry. -/
def load000 (saved : Option Stored) (roster : List String) (freshId : String)
    (st : AppState) : Except String AppState :=
  match saved with
  | some s =>
    match jsonParse s with
    | .ok parsed =>
      .ok { st with entries := parsed.entries, lastSyncTime := some parsed.lastUpdated }
    | .error e => .error e
  | none => .ok { st with entries := [mkEntry roster freshId] }

/-- `parsed.lastUpdated || null`: a JS number is falsy exactly at zero. -/
def orNullTime (t : Int) : Option Int := if t = 0 then none else some t

/-- The initial-load effect of part_001 (lines 18-29): parse inside
`try`/`catch`; on failure only `console.error` runs and the state is kept;
on an absent slot nothing happens.  `parsed.entries || []` is the identity on
arrays (arrays are truthy, even when empty). -/
def load001 (saved : Option Stored) (st : AppState) : AppState :=
  match saved with
  | some s =>
    match jsonParse s with
    | .ok parsed =>
      { st with entries := parsed.entries, lastSyncTime := orNullTime parsed.lastUpdated }
    | .error _ => st
  | none => st

/-- A storage event as the part_000 listener sees it; `new Event('storage')`
carries neither `key` nor `newValue` (both read as `undefined`). -/
structure StorageEv where
  key : Option String
  newValue : Option Stored
deriving DecidableEq, Repr

/-- What part_000's `saveToCloud` (lines 47-65) produces once the timeout
body runs: the new slot value, the dispatched synthetic event, and the new
component state. -/
structure Save000Result where
  slot : Stored
  dispatched : StorageEv
  state : AppState
deriving DecidableEq, Repr

/-- `saveToCloud` of part_000: serialize `{entries, lastUpdated: Date.now()}`
into the slot, set `lastSyncTime`, and dispatch a bare `new Event('storage')`
(no key, no newValue) for same-tab listeners. -/
def saveToCloud000 (now : Int) (st : AppState) : Save000Result :=
  let syncData : SyncData := ⟨st.entries, now⟩
  { slot := .ok syncData
    dispatched := ⟨none, none⟩
    state := { st with lastSyncTime := some now } }

/-- `handleStorageChange` of part_000 (lines 36-42): rehydrate only when the
event's key equals the storage key and its new value is non-null; the inner
`JSON.parse` is unguarded, so a malformed incoming value would propagate. -/
def handleStorageChange (storageKey : String) (e : StorageEv) (st : AppState) :
    Except String AppState :=
  match e.key, e.newValue with
  | some k, some v =>
    if k == storageKey then
      match jsonParse v with
      | .ok parsed =>
        .ok { st with entries := parsed.entries, lastSyncTime := some parsed.lastUpdated }
      | .error err => .error err
    else .ok st
  | _, _ => .ok st

/-- `cloudStatus` values of part_001. -/
inductive CloudStatus where
  | idle
  | loading
  | success
  | error
deriving DecidableEq, Repr

/-- One observable effect of part_001's `saveToCloud` pass, in order of
occurrence.  `call i` is the awaited `ai.models.generateContent` call for
entry `i` (the pass suspends there until it completes or throws); `alert true`
is the success alert, `alert false` the failure alert.  The delayed
`setCloudStatus('idle')` scheduled 3 s after success is outside the pass and
not part of the trace. -/
inductive Ev where
  | syncing (b : Bool)
  | cloudStatus (s : CloudStatus)
  | progress (p : Int)
  | store (v : Stored)
  | call (i : Nat)
  | lastSync (t : Option Int)
  | userAlert (ok : Bool)
deriving DecidableEq, Repr

/-- JS `Math.round` on an exact rational: floor of `q + 1/2`. -/
def jround (q : ℚ) : Int := (q + 1/2).floor

/-- `Math.round(((i + 1) / entries.length) * 100)` (part_001 line 73). -/
def progressValue (i n : Nat) : Int := jround ((((i : ℚ) + 1) / (n : ℚ)) * 100)

/-- The per-entry loop of part_001's `saveToCloud` (lines 71-99): for each
entry, first set the progress, then issue and await the remote call; a failed
call throws, ending the loop (the `catch` handles it).  `callOk i` says
whether the call for index `i` succeeds.  Returns the emitted events and
whether the loop ran to completion. -/
def mirrorLoop (callOk : Nat → Bool) (n : Nat) :
    List DressEntry → Nat → List Ev × Bool
  | [], _ => ([], true)
  | _ :: rest, i =>
    let evs : List Ev := [.progress (progressValue i n), .call i]
    if callOk i then
      let r := mirrorLoop callOk n rest (i + 1)
      (evs ++ r.1, r.2)
    else (evs, false)

/-- `saveToCloud` of part_001 (lines 58-113) as its ordered effect trace:
early-return on an empty list; otherwise mark syncing/loading, zero the
progress, write the local snapshot, run the per-entry loop, then either the
success tail (`setLastSyncTime`, status success, success alert) or the
failure tail (status error, failure alert), and finally the `finally` block
(syncing off, progress reset). -/
def saveToCloud001 (entries : List DressEntry) (now : Int) (callOk : Nat → Bool) :
    List Ev :=
  if entries.isEmpty then []
  else
    let syncData : SyncData := ⟨entries, now⟩
    let r := mirrorLoop callOk entries.length entries 0
    [.syncing true, .cloudStatus .loading, .progress 0, .store (.ok syncData)]
      ++ r.1
      ++ (if r.2 then [.lastSync (some now), .cloudStatus .success, .userAlert true]
          else [.cloudStatus .error, .userAlert false])
      ++ [.syncing false, .progress 0]

/-- The indices of the remote calls a trace issues, in order. -/
def callsOf (T : List Ev) : List Nat :=
  T.filterMap fun e =>
    match e with
    | .call i => some i
    | _ => none

/-- The values written to the local slot by a trace, in order. -/
def storesOf (T : List Ev) : List Stored :=
  T.filterMap fun e =>
    match e with
    | .store v => some v
    | _ => none

/-- The alerts a trace surfaces, in order (`true` = success notice). -/
def alertsOf (T : List Ev) : List Bool :=
  T.filterMap fun e =>
    match e with
    | .userAlert b => some b
    | _ => none

/-- The reading of claim C8 over the trace: every report of the progress
value belonging to entry `i` happens strictly after entry `i`'s remote call
has completed. -/
def progressOnlyAfterCall (T : List Ev) (n : Nat) : Prop :=
  ∀ (i a b : Nat), T[a]? = some (Ev.progress (progressValue i n)) →
    T[b]? = some (Ev.call i) → b < a

/-- The output of `compressImage` (part_001 lines 31-56): the canvas
dimensions it draws at and the re-encoding parameters of
`canvas.toDataURL('image/jpeg', 0.5)`. -/
structure CompressOutput where
  width : ℚ
  height : ℚ
  mime : String
  quality : ℚ
deriving DecidableEq, Repr

/-- `const MAX_SIZE = 600`. -/
def MAX_SIZE : ℚ := 600

/-- The dimension logic of `compressImage`: clamp the longer side to
`MAX_SIZE`, scaling the other to keep the aspect ratio; inputs already within
the bound pass through unchanged.  The input (a decoded image of `w × h`
pixels) is read, never written. -/
def compressImage (w h : Nat) : CompressOutput :=
  let width : ℚ := w
  let height : ℚ := h
  let wh :=
    if width > height then
      if width > MAX_SIZE then (MAX_SIZE, height * (MAX_SIZE / width)) else (width, height)
    else
      if height > MAX_SIZE then (width * (MAX_SIZE / height), MAX_SIZE) else (width, height)
  ⟨wh.1, wh.2, "image/jpeg", 1/2⟩

/-- The state of `CountdownTimer` (src/components/CountdownTimer.tsx). -/
structure TimeLeft where
  days : Nat
  hours : Nat
  minutes : Nat
  seconds : Nat
deriving DecidableEq, Repr

/-- The decomposition of a non-negative remaining interval in milliseconds
(CountdownTimer.tsx lines 23-28): integer division and modulo. -/
def computeTimeLeft (distance : Nat) : TimeLeft :=
  { days := distance / (1000 * 60 * 60 * 24)
    hours := (distance % (1000 * 60 * 60 * 24)) / (1000 * 60 * 60)
    minutes := (distance % (1000 * 60 * 60)) / (1000 * 60)
    seconds := (distance % (1000 * 60)) / 1000 }

/-- One tick of the interval (CountdownTimer.tsx lines 14-29): if the
distance is negative the interval is cleared and nothing is recomputed;
otherwise the decomposition is stored. -/
def countdownTick (targetDate now : Int) : Option TimeLeft :=
  let distance := targetDate - now
  if distance < 0 then none
  else some (computeTimeLeft distance.toNat)

-- smoke checks
example : recordGet (recordSet ([] : List (String × Nat)) "a" 3) "a" = some 3 := by decide
example : mkTeamNotes ["a", "b"] = [("a", emptyNote "a"), ("b", emptyNote "b")] := by decide
example : load001 (some (.malformed "x")) initState = initState := rfl
example : load000 (some (.malformed "x")) ["a"] "id" initState = .error "x" := rfl
example : computeTimeLeft 90061000 = ⟨1, 1, 1, 1⟩ := by decide

/-! ### Record lemmas -/

theorem recordGet_recordSet {α : Type} (r : List (String × α)) (k : String)
    (v : α) (k' : String) :
    recordGet (recordSet r k v) k' = if k' = k then some v else recordGet r k' := by
  induction r with
  | nil =>
    by_cases h : k' = k
    · subst h; simp [recordSet, recordGet]
    · simp [recordSet, recordGet, h, Ne.symm h]
  | cons p r ih =>
    by_cases hpk : p.1 = k
    · by_cases h : k' = k
      · subst h; simp [recordSet, recordGet, hpk]
      · simp [recordSet, recordGet, hpk, h, Ne.symm h]
    · have h1 : (p.1 == k) = false := by simp [hpk]
      by_cases hp : p.1 = k'
      · have h : k' ≠ k := fun hc => hpk (hp.trans hc)
        simp [recordSet, recordGet, h1, hp, h]
      · have h2 : (p.1 == k') = false := by simp [hp]
        simp [recordSet, recordGet, h1, h2, ih]

theorem keysOf_recordSet {α : Type} (r : List (String × α)) (k : String) (v : α) :
    keysOf (recordSet r k v) =
      if k ∈ keysOf r then keysOf r else keysOf r ++ [k] := by
  simp only [keysOf]
  induction r with
  | nil => simp [recordSet]
  | cons p r ih =>
    by_cases hpk : p.1 = k
    · simp [recordSet, hpk]
    · have h1 : (p.1 == k) = false := by simp [hpk]
      simp only [recordSet, h1, Bool.false_eq_true, if_false, List.map_cons]
      rw [ih]
      by_cases hk : k ∈ r.map Prod.fst
      · simp [hk, Ne.symm hpk]
      · simp [hk, Ne.symm hpk]

theorem nodup_keysOf_recordSet {α : Type} (r : List (String × α)) (k : String)
    (v : α) (h : (keysOf r).Nodup) : (keysOf (recordSet r k v)).Nodup := by
  rw [keysOf_recordSet]
  by_cases hk : k ∈ keysOf r
  · simpa [hk] using h
  · simp only [hk, if_false]
    refine List.Nodup.append h (List.nodup_singleton k) ?_
    intro a ha hb
    simp at hb
    exact hk (hb ▸ ha)

/-! ### `mkTeamNotes` lemmas -/

theorem recordGet_foldl_emptyNote (l : List String)
    (acc : List (String × NoteObj)) (k : String) :
    recordGet (l.foldl (fun a n => recordSet a n (emptyNote n)) acc) k =
      if k ∈ l then some (emptyNote k) else recordGet acc k := by
  induction l generalizing acc with
  | nil => simp
  | cons n l ih =>
    rw [List.foldl_cons, ih]
    by_cases hl : k ∈ l
    · simp [hl]
    · by_cases hn : k = n
      · subst hn
        simp [hl, recordGet_recordSet]
      · simp [hl, hn, recordGet_recordSet]

theorem recordGet_mkTeamNotes (roster : List String) (k : String) :
    recordGet (mkTeamNotes roster) k =
      if k ∈ roster then some (emptyNote k) else none := by
  rw [mkTeamNotes, recordGet_foldl_emptyNote]
  rfl

theorem nodup_keysOf_mkTeamNotes (roster : List String) :
    (keysOf (mkTeamNotes roster)).Nodup := by
  rw [mkTeamNotes]
  have : ∀ (l : List String) (acc : List (String × NoteObj)),
      (keysOf acc).Nodup →
      (keysOf (l.foldl (fun a n => recordSet a n (emptyNote n)) acc)).Nodup := by
    intro l
    induction l with
    | nil => intro acc h; simpa using h
    | cons n l ih =>
      intro acc h
      rw [List.foldl_cons]
      exact ih _ (nodup_keysOf_recordSet _ _ _ h)
  exact this roster [] (by simp [keysOf])

/-! ### Remote Mirror loop lemmas -/

theorem mirrorLoop_fail (callOk : Nat → Bool) (n : Nat) :
    ∀ (rest : List DressEntry) (i m : Nat), i ≤ m → m < i + rest.length →
      (∀ t, i ≤ t → t < m → callOk t = true) → callOk m = false →
      callsOf (mirrorLoop callOk n rest i).1 = List.range' i (m + 1 - i) ∧
      (mirrorLoop callOk n rest i).2 = false ∧
      alertsOf (mirrorLoop callOk n rest i).1 = [] ∧
      storesOf (mirrorLoop callOk n rest i).1 = [] := by
  intro rest
  induction rest with
  | nil =>
    intro i m h1 h2 _ _
    simp at h2
    omega
  | cons a rest ih =>
    intro i m h1 h2 hok hfail
    by_cases him : i = m
    · subst him
      simp [mirrorLoop, hfail, callsOf, alertsOf, storesOf]
    · have hlt : i < m := lt_of_le_of_ne h1 him
      have hoki : callOk i = true := hok i le_rfl hlt
      obtain ⟨hc, hs, ha, hst⟩ :=
        ih (i + 1) m hlt (by simp at h2; omega)
          (fun t ht1 ht2 => hok t (by omega) ht2) hfail
      have hlen : m + 1 - i = (m + 1 - (i + 1)) + 1 := by omega
      refine ⟨?_, ?_, ?_, ?_⟩
      · simp only [mirrorLoop, hoki, if_true, callsOf, List.filterMap_append,
          List.filterMap_cons, List.filterMap_nil]
        rw [callsOf] at hc
        rw [hc, hlen, List.range'_succ]
        rfl
      · simp only [mirrorLoop, hoki, if_true]
        exact hs
      · simp only [mirrorLoop, hoki, if_true, alertsOf, List.filterMap_append,
          List.filterMap_cons, List.filterMap_nil]
        rw [alertsOf] at ha
        rw [ha]
        rfl
      · simp only [mirrorLoop, hoki, if_true, storesOf, List.filterMap_append,
          List.filterMap_cons, List.filterMap_nil]
        rw [storesOf] at hst
        rw [hst]
        rfl

theorem mirrorLoop_progress_before_call (callOk : Nat → Bool) (n : Nat) :
    ∀ (rest : List DressEntry) (i j : Nat),
      Ev.call j ∈ (mirrorLoop callOk n rest i).1 →
      List.IsInfix [Ev.progress (progressValue j n), Ev.call j]
        (mirrorLoop callOk n rest i).1 := by
  intro rest
  induction rest with
  | nil =>
    intro i j hj
    simp [mirrorLoop] at hj
  | cons a rest ih =>
    intro i j hj
    by_cases hji : j = i
    · subst hji
      by_cases hoki : callOk j = true
      · simp only [mirrorLoop, hoki, if_true]
        exact ⟨[], (mirrorLoop callOk n rest (j + 1)).1, rfl⟩
      · simp only [mirrorLoop, hoki, if_false]
        exact ⟨[], [], rfl⟩
    · by_cases hoki : callOk i = true
      · simp only [mirrorLoop, hoki, if_true] at hj ⊢
        have hj' : Ev.call j ∈ (mirrorLoop callOk n rest (i + 1)).1 := by
          rcases List.mem_append.mp hj with h | h
          · simp at h
            exact absurd h hji
          · exact h
        obtain ⟨s, t, hst⟩ := ih (i + 1) j hj'
        exact ⟨[Ev.progress (progressValue i n), Ev.call i] ++ s, t, by
          rw [← hst]; simp⟩
      · simp only [mirrorLoop, hoki, if_false] at hj
        simp at hj
        exact absurd hj hji

/-! ### Entry Store invariant lemmas -/

theorem entryInv_mkEntry (roster : List String) (fid : String) :
    entryInv roster (mkEntry roster fid) := by
  refine ⟨nodup_keysOf_mkTeamNotes roster, ?_, ?_⟩
  · intro k
    rw [show (mkEntry roster fid).teamNotes = mkTeamNotes roster from rfl,
      recordGet_mkTeamNotes]
    by_cases hk : k ∈ roster <;> simp [hk]
  · intro k v hv
    rw [show (mkEntry roster fid).teamNotes = mkTeamNotes roster from rfl,
      recordGet_mkTeamNotes] at hv
    by_cases hk : k ∈ roster
    · simp [hk] at hv
      rw [← hv]
      rfl
    · simp [hk] at hv

theorem entryInv_updateNote (roster : List String) (e : DressEntry)
    (m : String) (u : NoteUpdates) (hm : m ∈ roster) (h : entryInv roster e) :
    entryInv roster
      { e with teamNotes :=
          recordSet e.teamNotes m (spreadNote (recordGet e.teamNotes m) u) } := by
  obtain ⟨hnd, hdom, hname⟩ := h
  obtain ⟨b, hb⟩ : ∃ b, recordGet e.teamNotes m = some b := by
    have := (hdom m).mpr hm
    cases hget : recordGet e.teamNotes m with
    | none => rw [hget] at this; simp at this
    | some b => exact ⟨b, rfl⟩
  refine ⟨?_, ?_, ?_⟩
  · exact nodup_keysOf_recordSet _ _ _ hnd
  · intro k
    rw [recordGet_recordSet]
    by_cases hk : k = m
    · subst hk; simpa using hm
    · simpa [hk] using hdom k
  · intro k v hv
    rw [recordGet_recordSet] at hv
    by_cases hk : k = m
    · subst hk
      simp at hv
      rw [← hv, hb]
      exact hname _ b hb
    · rw [if_neg hk] at hv
      exact hname _ _ hv

theorem entryInv_applyOp (roster : List String) (entries : List DressEntry)
    (op : StoreOp) (hop : opTouchesRoster roster op = true)
    (h : ∀ e ∈ entries, entryInv roster e) :
    ∀ e ∈ applyOp roster entries op, entryInv roster e := by
  cases op with
  | create fid =>
    intro e he
    rw [applyOp, addNewDress] at he
    rcases List.mem_cons.mp he with rfl | he'
    · exact entryInv_mkEntry roster fid
    · exact h e he'
  | updateFields id u =>
    intro e he
    rw [applyOp, updateEntry] at he
    obtain ⟨e₀, he₀, rfl⟩ := List.mem_map.mp he
    by_cases hid : e₀.id == id
    · have hinv := h e₀ he₀
      simp only [hid, if_true]
      have : (applyEntryUpdates e₀ u).teamNotes = e₀.teamNotes := rfl
      exact ⟨this ▸ hinv.1, fun k => this ▸ hinv.2.1 k, fun k v hv => hinv.2.2 k v (this ▸ hv)⟩
    · simp only [hid, Bool.false_eq_true, if_false]
      exact h e₀ he₀
  | updateNote id m u =>
    intro e he
    rw [applyOp, updateMemberNote] at he
    obtain ⟨e₀, he₀, rfl⟩ := List.mem_map.mp he
    have hm : m ∈ roster := by
      simpa [opTouchesRoster] using hop
    by_cases hid : e₀.id == id
    · simp only [hid, if_true]
      exact entryInv_updateNote roster e₀ m u hm (h e₀ he₀)
    · simp only [hid, Bool.false_eq_true, if_false]
      exact h e₀ he₀
  | remove id =>
    intro e he
    rw [applyOp, removeDress] at he
    exact h e (List.mem_of_mem_filter he)

theorem entryInv_foldl (roster : List String) (ops : List StoreOp)
    (hops : ops.all (opTouchesRoster roster) = true) :
    ∀ entries, (∀ e ∈ entries, entryInv roster e) →
      ∀ e ∈ ops.foldl (applyOp roster) entries, entryInv roster e := by
  induction ops with
  | nil => intro entries h e he; exact h e he
  | cons op ops ih =>
    intro entries h e he
    simp only [List.all_cons, Bool.and_eq_true] at hops
    rw [List.foldl_cons] at he
    exact ih hops.2 _ (entryInv_applyOp roster entries op hops.1 h) e he

/-! ### Claim theorems -/

/-- Claim C1, counterexample: in the part_000 variant a slot value that fails
to parse makes the initial load throw — `load000` propagates the parse
failure instead of catching it, refuting "load never throws / crashes the
session, for any input string". -/
theorem load000_malformed_throws_cex :
    (load000 (some (Stored.malformed "not json")) ["a"] "id0" initState).isOk
      = false := rfl

/-- Claim C1, amended: only the part_001 variant catches a malformed
persisted slot value (logging it and keeping the previous in-memory state);
the part_000 variant propagates the parse failure out of the load effect. -/
theorem load_malformed_behavior (raw : String) (roster : List String)
    (fid : String) (st : AppState) :
    load001 (some (Stored.malformed raw)) st = st ∧
    load000 (some (Stored.malformed raw)) roster fid st = Except.error raw :=
  ⟨rfl, rfl⟩

/-- Claim C5: save followed by load in a fresh session reproduces an
identical ordered entry sequence and the same `lastUpdated` timestamp as the
snapshot that was saved, in both load variants (the part_001 load maps a zero
timestamp to null via `|| null`, so a positive `Date.now()` is assumed). -/
theorem save_load_roundtrip (st : AppState) (now : Int) (roster : List String)
    (fid : String) (hnow : 0 < now) :
    load000 (some (saveToCloud000 now st).slot) roster fid initState =
      Except.ok ⟨st.entries, some now⟩ ∧
    load001 (some (saveToCloud000 now st).slot) initState =
      ⟨st.entries, some now⟩ := by
  have h0 : now ≠ 0 := by omega
  exact ⟨rfl, by simp [saveToCloud000, load001, jsonParse, orNullTime, h0, initState]⟩

/-- Claim C5, witness at a one-entry store saved at time 7. -/
theorem save_load_roundtrip_witness :
    load000 (some (saveToCloud000 7 ⟨[mkEntry ["a"] "e1"], none⟩).slot) ["a"] "f"
        initState = Except.ok ⟨[mkEntry ["a"] "e1"], some 7⟩ ∧
    load001 (some (saveToCloud000 7 ⟨[mkEntry ["a"] "e1"], none⟩).slot) initState =
      ⟨[mkEntry ["a"] "e1"], some 7⟩ :=
  save_load_roundtrip ⟨[mkEntry ["a"] "e1"], none⟩ 7 ["a"] "f" (by decide)

/-- Claim C6, counterexample: the part_001 variant does not seed — with no
prior snapshot its load leaves the store with zero entries, not one. -/
theorem load001_no_seed_cex : ¬ ((load001 none initState).entries.length = 1) := by
  decide

/-- Claim C6, amended: only the part_000 variant seeds: with no prior
snapshot it stores exactly one entry with the freshly generated id, empty
location and price, no image, and one empty note (empty text, unset vote) per
roster member and none besides; the part_001 variant leaves the store
unchanged (empty). -/
theorem load_seed_behavior (roster : List String) (fid : String) (st : AppState) :
    load000 none roster fid st = .ok { st with entries := [mkEntry roster fid] } ∧
    (mkEntry roster fid).id = fid ∧
    (mkEntry roster fid).location = "" ∧
    (mkEntry roster fid).price = "" ∧
    (mkEntry roster fid).image = none ∧
    (∀ k : String, recordGet (mkEntry roster fid).teamNotes k =
      if k ∈ roster then some ⟨some k, some "", some none⟩ else none) ∧
    load001 none st = st := by
  refine ⟨rfl, rfl, rfl, rfl, rfl, ?_, rfl⟩
  intro k
  rw [show (mkEntry roster fid).teamNotes = mkTeamNotes roster from rfl,
    recordGet_mkTeamNotes]
  rfl

/-- Claim C9: for every non-negative remaining interval the countdown
decomposition yields hours in 0–23, minutes in 0–59, seconds in 0–59, and at
exactly 90061000 ms it yields one day, one hour, one minute, one second. -/
theorem countdown_decomposition (targetDate now : Int)
    (hd : 0 ≤ targetDate - now) :
    ∃ t, countdownTick targetDate now = some t ∧
      t.hours < 24 ∧ t.minutes < 60 ∧ t.seconds < 60 ∧
      (targetDate - now = 90061000 → t = ⟨1, 1, 1, 1⟩) := by
  refine ⟨computeTimeLeft (targetDate - now).toNat, ?_, ?_, ?_, ?_, ?_⟩
  · simp [countdownTick, not_lt.mpr hd]
  · simp only [computeTimeLeft]
    omega
  · simp only [computeTimeLeft]
    omega
  · simp only [computeTimeLeft]
    omega
  · intro h90
    rw [h90]
    decide

/-- Claim C9, witness at the spec's concrete 90061000 ms interval. -/
theorem countdown_decomposition_witness :
    ∃ t, countdownTick 90061000 0 = some t ∧
      t.hours < 24 ∧ t.minutes < 60 ∧ t.seconds < 60 ∧
      ((90061000 : Int) - 0 = 90061000 → t = ⟨1, 1, 1, 1⟩) :=
  countdown_decomposition 90061000 0 (by decide)

/-- Claim C10: the synthetic `new Event('storage')` dispatched by part_000's
save carries no key and no new value, and the storage-change handler ignores
any such event, leaving entries and lastSyncTime unchanged for every state. -/
theorem synthetic_storage_event_noop (storageKey : String) (now : Int)
    (st listener : AppState) :
    (saveToCloud000 now st).dispatched = ⟨none, none⟩ ∧
    handleStorageChange storageKey (saveToCloud000 now st).dispatched listener =
      .ok listener :=
  ⟨rfl, rfl⟩

/-- Claim C2, counterexample: an update-note operation whose member name lies
outside the roster is not a no-op — it inserts an extra key into the entry's
teamNotes map, so after `create "e1"` then `updateNote "e1" "zzz"` the
surviving entry violates the exactly-the-roster invariant. -/
theorem rosterInvariant_cex :
    ¬ (∀ e ∈ runOps ["a"]
          [StoreOp.create "e1", StoreOp.updateNote "e1" "zzz" ⟨some "hi", none⟩],
        entryInv ["a"] e) := by
  intro h
  have he : (⟨"e1", "", "", none,
      [("a", ⟨some "a", some "", some none⟩), ("zzz", ⟨none, some "hi", none⟩)]⟩ :
        DressEntry) ∈ runOps ["a"]
      [StoreOp.create "e1", StoreOp.updateNote "e1" "zzz" ⟨some "hi", none⟩] := by
    decide
  have h2 := (h _ he).2.1 "zzz"
  exact absurd (h2.mp (by decide)) (by decide)

/-- Claim C2, amended: for every operation sequence whose update-note
operations only name roster members — as every call site in the UI does —
every surviving entry's teamNotes map has duplicate-free keys, contains
exactly one note per roster member and no others, and each note's name field
equals its map key. -/
theorem rosterInvariant (roster : List String) (ops : List StoreOp)
    (hops : ops.all (opTouchesRoster roster) = true) :
    ∀ e ∈ runOps roster ops, entryInv roster e := by
  rw [runOps]
  exact entryInv_foldl roster ops hops [] (by simp)

/-- Claim C2, witness: the invariant for the entry surviving a concrete
create-then-note sequence. -/
theorem rosterInvariant_witness : entryInv ["a"] (mkEntry ["a"] "e1") :=
  rosterInvariant ["a"] [StoreOp.create "e1"] (by decide) (mkEntry ["a"] "e1")
    (by decide)

/-- Claim C3, counterexample: when the entry exists but has no note under the
member name, update-note is not a no-op — it inserts a fresh partial note
object under that name. -/
theorem updateMemberNote_absent_member_cex :
    updateMemberNote "e1" "zzz" ⟨some "hi", none⟩ [mkEntry ["a"] "e1"] ≠
      [mkEntry ["a"] "e1"] := by
  decide

/-- Claim C3, amended: update-note is a no-op when no entry has the given id;
when an entry matches, its other fields and other members' notes are
untouched and the given fields merge into that member's note — except that
when the member is absent, a new note object holding only the given fields
(and no name) is inserted under that member name instead of nothing
happening. -/
theorem updateMemberNote_spec (entries : List DressEntry) (id m : String)
    (u : NoteUpdates) :
    ((∀ e ∈ entries, e.id ≠ id) → updateMemberNote id m u entries = entries) ∧
    (updateMemberNote id m u entries).length = entries.length ∧
    (∀ (i : Nat) (e : DressEntry), entries[i]? = some e →
      ∃ e', (updateMemberNote id m u entries)[i]? = some e' ∧
        (e.id ≠ id → e' = e) ∧
        (e.id = id →
          e'.id = e.id ∧ e'.location = e.location ∧ e'.price = e.price ∧
          e'.image = e.image ∧
          (∀ k : String, k ≠ m →
            recordGet e'.teamNotes k = recordGet e.teamNotes k) ∧
          (∀ v, recordGet e.teamNotes m = some v →
            recordGet e'.teamNotes m =
              some ⟨v.name, mergeField u.note v.note, mergeField u.vote v.vote⟩) ∧
          (recordGet e.teamNotes m = none →
            recordGet e'.teamNotes m = some ⟨none, u.note, u.vote⟩))) := by
  refine ⟨?_, ?_, ?_⟩
  · intro h
    rw [updateMemberNote]
    have h1 : entries.map (fun e =>
        if e.id == id then
          let merged := spreadNote (recordGet e.teamNotes m) u
          { e with teamNotes := recordSet e.teamNotes m merged }
        else e) = entries.map (fun e => e) := by
      refine List.map_congr_left ?_
      intro e he
      simp [h e he]
    rw [h1, List.map_id']
  · rw [updateMemberNote]
    exact List.length_map _ _
  · intro i e he
    by_cases hid : e.id = id
    · have hb : (e.id == id) = true := by simp [hid]
      refine ⟨{ e with teamNotes := recordSet e.teamNotes m (spreadNote (recordGet e.teamNotes m) u) }, ?_, ?_, ?_⟩
      · rw [updateMemberNote, List.getElem?_map, he]
        simp only [Option.map_some', hb, if_true]
      · intro hne
        exact absurd hid hne
      · intro _
        refine ⟨rfl, rfl, rfl, rfl, ?_, ?_, ?_⟩
        · intro k hk
          exact (recordGet_recordSet _ _ _ _).trans (if_neg hk)
        · intro v hv
          show recordGet (recordSet e.teamNotes m (spreadNote (recordGet e.teamNotes m) u)) m = _
          rw [recordGet_recordSet, if_pos rfl, hv]
          exact rfl
        · intro hv
          show recordGet (recordSet e.teamNotes m (spreadNote (recordGet e.teamNotes m) u)) m = _
          rw [recordGet_recordSet, if_pos rfl, hv]
          exact rfl
    · have hb : (e.id == id) = false := by simp [hid]
      refine ⟨e, ?_, ?_, ?_⟩
      · rw [updateMemberNote, List.getElem?_map, he]
        simp only [Option.map_some', hb, Bool.false_eq_true, if_false]
      · intro _
        rfl
      · intro h
        exact absurd h hid

/-- Claim C3, witness: update-note really is a no-op when the id is absent. -/
theorem updateMemberNote_spec_witness :
    updateMemberNote "e9" "a" ⟨some "x", none⟩ [mkEntry ["a"] "e1"] =
      [mkEntry ["a"] "e1"] :=
  (updateMemberNote_spec [mkEntry ["a"] "e1"] "e9" "a" ⟨some "x", none⟩).1
    (by decide)

/-- Claim C7: the normalizer re-encodes as JPEG at quality 0.5, preserves the
aspect ratio exactly (stated cross-multiplied to avoid division), clamps the
longer side — whichever axis it is — to 600 whenever the input's longer side
exceeds 600, and passes dimensions through unchanged when both are at most
600 (no upscaling).  The input is only read; the model is a pure function of
the decoded dimensions, reflecting that `compressImage` never writes to its
argument. -/
theorem compressImage_spec (w h : Nat) (hw : 0 < w) (hh : 0 < h) :
    (compressImage w h).mime = "image/jpeg" ∧
    (compressImage w h).quality = 1/2 ∧
    (compressImage w h).width * (h : ℚ) = (compressImage w h).height * (w : ℚ) ∧
    (600 < max w h →
      max (compressImage w h).width (compressImage w h).height = 600) ∧
    (w ≤ 600 → h ≤ 600 →
      (compressImage w h).width = (w : ℚ) ∧ (compressImage w h).height = (h : ℚ)) := by
  have hwQ : (0 : ℚ) < (w : ℚ) := by exact_mod_cast hw
  have hhQ : (0 : ℚ) < (h : ℚ) := by exact_mod_cast hh
  by_cases h1 : (h : ℚ) < (w : ℚ)
  · by_cases h2 : MAX_SIZE < (w : ℚ)
    · have hout : compressImage w h =
          ⟨MAX_SIZE, (h : ℚ) * (MAX_SIZE / (w : ℚ)), "image/jpeg", 1/2⟩ := by
        rw [compressImage]
        simp only [gt_iff_lt, h1, if_true, h2]
      rw [hout, MAX_SIZE]
      refine ⟨rfl, rfl, ?_, ?_, ?_⟩
      · show (600 : ℚ) * (h : ℚ) = (h : ℚ) * (600 / (w : ℚ)) * (w : ℚ)
        field_simp
        ring
      · intro _
        have hle : (h : ℚ) * (600 / (w : ℚ)) ≤ 600 := by
          rw [mul_div_assoc', div_le_iff₀ hwQ]
          nlinarith
        exact max_eq_left hle
      · intro hw6 _
        exfalso
        have : (w : ℚ) ≤ 600 := by exact_mod_cast hw6
        rw [MAX_SIZE] at h2
        linarith
    · have hout : compressImage w h = ⟨(w : ℚ), (h : ℚ), "image/jpeg", 1/2⟩ := by
        rw [compressImage]
        simp only [gt_iff_lt, h1, if_true, h2, if_false]
      rw [hout]
      refine ⟨rfl, rfl, mul_comm _ _, ?_, fun _ _ => ⟨rfl, rfl⟩⟩
      intro hmax
      exfalso
      rw [MAX_SIZE, not_lt] at h2
      have hhw : h < w := by exact_mod_cast h1
      have hw6 : w ≤ 600 := by exact_mod_cast h2
      have : max w h = w := max_eq_left (le_of_lt hhw)
      omega
  · by_cases h2 : MAX_SIZE < (h : ℚ)
    · have hout : compressImage w h =
          ⟨(w : ℚ) * (MAX_SIZE / (h : ℚ)), MAX_SIZE, "image/jpeg", 1/2⟩ := by
        rw [compressImage]
        simp only [gt_iff_lt, h1, if_false, h2, if_true]
      rw [hout, MAX_SIZE]
      refine ⟨rfl, rfl, ?_, ?_, ?_⟩
      · show (w : ℚ) * (600 / (h : ℚ)) * (h : ℚ) = (600 : ℚ) * (w : ℚ)
        field_simp
        ring
      · intro _
        have hle : (w : ℚ) * (600 / (h : ℚ)) ≤ 600 := by
          rw [mul_div_assoc', div_le_iff₀ hhQ]
          have hwh : (w : ℚ) ≤ (h : ℚ) := not_lt.mp h1
          nlinarith
        exact max_eq_right hle
      · intro _ hh6
        exfalso
        have : (h : ℚ) ≤ 600 := by exact_mod_cast hh6
        rw [MAX_SIZE] at h2
        linarith
    · have hout : compressImage w h = ⟨(w : ℚ), (h : ℚ), "image/jpeg", 1/2⟩ := by
        rw [compressImage]
        simp only [gt_iff_lt, h1, if_false, h2]
      rw [hout]
      refine ⟨rfl, rfl, mul_comm _ _, ?_, fun _ _ => ⟨rfl, rfl⟩⟩
      intro hmax
      exfalso
      rw [MAX_SIZE, not_lt] at h2
      have hwh : w ≤ h := by exact_mod_cast not_lt.mp h1
      have hh6 : h ≤ 600 := by exact_mod_cast h2
      omega

/-- Claim C7, witness: a 4000 × 2000 landscape input is clamped to a longer
side of exactly 600. -/
theorem compressImage_spec_witness :
    max (compressImage 4000 2000).width (compressImage 4000 2000).height = 600 :=
  (compressImage_spec 4000 2000 (by decide) (by decide)).2.2.2.1 (by decide)

/-- Claim C4: when the remote call for entry k (1-based) fails and all
earlier calls succeed, the pass issues exactly one call per entry for entries
1..k in order and never attempts the rest, surfaces exactly one failure
notice, and the only slot write of the pass is the snapshot written at its
start — local persistence is never rolled back or invalidated. -/
theorem saveToCloud001_failure (entries : List DressEntry) (now : Int)
    (callOk : Nat → Bool) (k : Nat) (hk1 : 0 < k) (hk2 : k ≤ entries.length)
    (hok : ∀ i, i + 1 < k → callOk i = true) (hfail : callOk (k - 1) = false) :
    callsOf (saveToCloud001 entries now callOk) = List.range k ∧
    alertsOf (saveToCloud001 entries now callOk) = [false] ∧
    storesOf (saveToCloud001 entries now callOk) = [Stored.ok ⟨entries, now⟩] := by
  have hne : entries.isEmpty = false := by
    cases entries with
    | nil => simp at hk2; omega
    | cons a l => rfl
  obtain ⟨hc, hs, ha, hst⟩ := mirrorLoop_fail callOk entries.length entries 0 (k - 1)
    (by omega) (by omega) (fun t ht1 ht2 => hok t (by omega)) hfail
  have hT : saveToCloud001 entries now callOk =
      [Ev.syncing true, Ev.cloudStatus CloudStatus.loading, Ev.progress 0,
        Ev.store (Stored.ok ⟨entries, now⟩)]
      ++ (mirrorLoop callOk entries.length entries 0).1
      ++ [Ev.cloudStatus CloudStatus.error, Ev.userAlert false]
      ++ [Ev.syncing false, Ev.progress 0] := by
    rw [saveToCloud001]
    simp only [hne, Bool.false_eq_true, if_false, hs]
  refine ⟨?_, ?_, ?_⟩
  · rw [hT]
    simp only [callsOf] at hc ⊢
    simp only [List.filterMap_append, hc]
    simp [List.range_eq_range', show k - 1 + 1 - 0 = k from by omega]
  · rw [hT]
    simp only [alertsOf] at ha ⊢
    simp only [List.filterMap_append, ha]
    simp
  · rw [hT]
    simp only [storesOf] at hst ⊢
    simp only [List.filterMap_append, hst]
    simp

/-- Claim C4, witness: two entries, first call fails — exactly one call is
issued, one failure alert surfaces, and the slot keeps the pass's snapshot. -/
theorem saveToCloud001_failure_witness :
    callsOf (saveToCloud001 [mkEntry ["a"] "e1", mkEntry ["a"] "e2"] 5
        (fun _ => false)) = List.range 1 ∧
    alertsOf (saveToCloud001 [mkEntry ["a"] "e1", mkEntry ["a"] "e2"] 5
        (fun _ => false)) = [false] ∧
    storesOf (saveToCloud001 [mkEntry ["a"] "e1", mkEntry ["a"] "e2"] 5
        (fun _ => false)) =
      [Stored.ok ⟨[mkEntry ["a"] "e1", mkEntry ["a"] "e2"], 5⟩] :=
  saveToCloud001_failure [mkEntry ["a"] "e1", mkEntry ["a"] "e2"] 5
    (fun _ => false) 1 (by decide) (by decide)
    (fun i hi => absurd hi (by omega)) rfl

/-- Claim C8, counterexample: with one entry and a succeeding call, the trace
holds the progress report round(100·(0+1)/1) at position 4 and the completed
call event only at position 5 — the progress for an entry is reported before
its call, not after it completes. -/
theorem progress_before_call_cex :
    ¬ progressOnlyAfterCall
        (saveToCloud001 [mkEntry ["a"] "e1"] 5 (fun _ => true)) 1 := by
  intro h
  have h45 := h 0 4 5 rfl rfl
  exact absurd h45 (by omega)

/-- Claim C8, amended: the progress value round(100·(i+1)/n) for entry i is
reported immediately before entry i's remote call is issued — the two events
are adjacent in the trace with the progress report first — hence before, not
after, the call completes, for every entry that is reached. -/
theorem progress_adjacent_before_call (entries : List DressEntry) (now : Int)
    (callOk : Nat → Bool) (j : Nat)
    (hj : Ev.call j ∈ saveToCloud001 entries now callOk) :
    List.IsInfix [Ev.progress (progressValue j entries.length), Ev.call j]
      (saveToCloud001 entries now callOk) := by
  by_cases hne : entries.isEmpty
  · rw [saveToCloud001] at hj
    simp [hne] at hj
  · have hne' : entries.isEmpty = false := by
      simpa using hne
    rw [saveToCloud001] at hj ⊢
    simp only [hne', Bool.false_eq_true, if_false] at hj ⊢
    have hj' : Ev.call j ∈ (mirrorLoop callOk entries.length entries 0).1 := by
      rcases List.mem_append.mp hj with hA | hFin
      · rcases List.mem_append.mp hA with hB | hBr
        · rcases List.mem_append.mp hB with hPre | hL
          · simp at hPre
          · exact hL
        · exfalso
          by_cases hdone : (mirrorLoop callOk entries.length entries 0).2 <;>
            simp [hdone] at hBr
      · simp at hFin
    obtain ⟨s, t, hst⟩ :=
      mirrorLoop_progress_before_call callOk entries.length entries 0 j hj'
    refine ⟨[Ev.syncing true, Ev.cloudStatus CloudStatus.loading, Ev.progress 0,
      Ev.store (Stored.ok ⟨entries, now⟩)] ++ s,
      t ++ ((if (mirrorLoop callOk entries.length entries 0).2 then
          [Ev.lastSync (some now), Ev.cloudStatus CloudStatus.success,
            Ev.userAlert true]
        else [Ev.cloudStatus CloudStatus.error, Ev.userAlert false])
        ++ [Ev.syncing false, Ev.progress 0]), ?_⟩
    rw [← hst]
    simp

/-- Claim C8, witness: the adjacency for the single reached entry of a
one-entry pass. -/
theorem progress_adjacent_before_call_witness :
    List.IsInfix [Ev.progress (progressValue 0 1), Ev.call 0]
      (saveToCloud001 [mkEntry ["a"] "e1"] 5 (fun _ => true)) :=
  progress_adjacent_before_call [mkEntry ["a"] "e1"] 5 (fun _ => true) 0
    (by decide)
example :
    saveToCloud001 [mkEntry ["a"] "e1"] 5 (fun _ => true) =
      [.syncing true, .cloudStatus .loading, .progress 0,
       .store (.ok ⟨[mkEntry ["a"] "e1"], 5⟩), .progress (progressValue 0 1), .call 0,
       .lastSync (some 5), .cloudStatus .success, .userAlert true,
       .syncing false, .progress 0] := rfl
